import Mathlib

/-!
Shallow embedding of the SETools catalog-configuration engine
(`SETools_script.py`): config-file reading, mask construction, random and
flag splits, template interpolation, and the save routines, together with
theorems about the properties stated in the specification.

Python dictionaries are modelled as insertion-ordered association lists
with unique keys (`dinsert` replaces the value when the key is present,
appends otherwise).  Python strings are Lean `String`s, but the splitting
and filtering primitives are re-implemented by structural recursion on the
underlying character list so that concrete runs reduce inside the kernel.
Floating-point ratio arithmetic is modelled exactly over `ℚ`.
-/

/-- Look up a key in an association list (Python `d[k]` / `d.get(k)`). -/
def dlookup {α : Type} : List (String × α) → String → Option α
  | [], _ => none
  | p :: d, k => if p.1 = k then some p.2 else dlookup d k

/-- Python `d[k] = v`: replace the value of the (unique) entry whose key is
present, append a new entry otherwise. -/
def dinsert {α : Type} : List (String × α) → String → α → List (String × α)
  | [], k, v => [(k, v)]
  | p :: d, k, v => if p.1 = k then (k, v) :: d else p :: dinsert d k v

/-- Python `d[k].append(v)` for a dict of lists (the key is assumed present). -/
def dappend : List (String × List String) → String → String →
    List (String × List String)
  | [], _, _ => []
  | p :: d, k, v => if p.1 = k then (p.1, p.2 ++ [v]) :: d else p :: dappend d k v

/-- Python `d.pop(k)`: the association list without the entry for `k`. -/
def derase {α : Type} : List (String × α) → String → List (String × α)
  | [], _ => []
  | p :: d, k => if p.1 = k then d else p :: derase d k

/-- Split a character list at every character satisfying `p`, keeping empty
fragments, as Python `re.split` does on a single-character pattern:
`n` separator occurrences yield `n + 1` fragments. -/
def chSplit (p : Char → Bool) : List Char → List (List Char)
  | [] => [[]]
  | c :: cs =>
    if p c then [] :: chSplit p cs
    else
      match chSplit p cs with
      | [] => [[c]]
      | h :: t => (c :: h) :: t

/-- String version of `chSplit` (Python `re.split(onechar, s)`). -/
def sSplit (p : Char → Bool) (s : String) : List String :=
  (chSplit p s.data).map (fun cs => ⟨cs⟩)

/-- Python `s.replace(c, '')`: drop every occurrence of a character. -/
def sDrop (c : Char) (s : String) : String :=
  ⟨s.data.filter (fun a => a != c)⟩

/-- Models `SETools._clean_line`: strip spaces (outside a single pair of
double quotes), return `None` for comment-only lines, strip newline, tab and
trailing comment, and return `None` when nothing remains. -/
def clean_line (line : String) : Option String :=
  let s := sSplit (fun c => c == '\x22') line
  let line1 :=
    if s.length == 3 then
      sDrop ' ' (s.getD 0 "") ++ s.getD 1 "" ++ sDrop ' ' (s.getD 2 "")
    else sDrop ' ' line
  if (sSplit (fun c => c == '#') line1).headD "" == "" then none
  else
    let line2 := sDrop '\t' (sDrop '\n' line1)
    let line3 := (sSplit (fun c => c == '#') line2).headD ""
    if line3 != "" then some line3 else none

/-- Parser state of `SETools.read`: one ordered dict of raw line lists per
section kind, the flat ordered list of mask names, the numeric code of the
currently open section kind (`0` = none, `1`-`6` = MASK..FLAG_SPLIT) and the
name of the currently open section. -/
structure ReadState where
  mask : List (String × List String)
  plot : List (String × List String)
  stat : List (String × List String)
  new_cat : List (String × List String)
  rand_split : List (String × List String)
  flag_split : List (String × List String)
  mask_key : List String
  in_section : Nat
  cur_name : String
deriving DecidableEq

/-- The state at the start of `SETools.read`. -/
def initState : ReadState := ⟨[], [], [], [], [], [], [], 0, ""⟩

/-- Python `re.split('\[', line)[0] == ''`: the line starts with `[`. -/
def isHeader (line : String) : Bool :=
  (sSplit (fun c => c == '[') line).headD "" == ""

/-- Python `re.split('\[|\]', line)[1]`: the text between the brackets. -/
def headerSec (line : String) : String :=
  (sSplit (fun c => c == '[' || c == ']') line).getD 1 ""

/-- Python `re.split(':', sec)[0]`: the section kind of a header. -/
def secKind (sec : String) : String :=
  (sSplit (fun c => c == ':') sec).headD ""

/-- Python `re.split(':', sec)[1]` with the `IndexError` fallback to the
generated name `<kind>_<count+1>`. -/
def secName (sec : String) (tag : String) (count : Nat) : String :=
  match (sSplit (fun c => c == ':') sec).get? 1 with
  | some nm => nm
  | none => tag ++ "_" ++ toString (count + 1)

/-- The header branch of `SETools.read`: open a section of the recognized
kind (recording its name and an empty line list) or fail on an unknown kind.
The previously open section is irrelevant here: the Python code has already
reset `in_section` to `0` before reaching this branch. -/
def openSection (st : ReadState) (line : String) : Except String ReadState :=
  let sec := headerSec line
  let k := secKind sec
  if k == "MASK" then
    let nm := secName sec "mask" st.mask.length
    .ok { st with
          in_section := 1
          cur_name := nm
          mask_key := st.mask_key ++ [nm]
          mask := dinsert st.mask nm [] }
  else if k == "PLOT" then
    let nm := secName sec "plot" st.plot.length
    .ok { st with in_section := 2, cur_name := nm, plot := dinsert st.plot nm [] }
  else if k == "STAT" then
    let nm := secName sec "stat" st.stat.length
    .ok { st with in_section := 3, cur_name := nm, stat := dinsert st.stat nm [] }
  else if k == "NEW_CAT" then
    let nm := secName sec "new_cat" st.new_cat.length
    .ok { st with in_section := 4, cur_name := nm, new_cat := dinsert st.new_cat nm [] }
  else if k == "RAND_SPLIT" then
    let nm := secName sec "rand_split" st.rand_split.length
    .ok { st with
          in_section := 5
          cur_name := nm
          rand_split := dinsert st.rand_split nm [] }
  else if k == "FLAG_SPLIT" then
    let nm := secName sec "flag_split" st.flag_split.length
    .ok { st with
          in_section := 6
          cur_name := nm
          flag_split := dinsert st.flag_split nm [] }
  else .error "Section has to be in MASK,PLOT,STAT,NEW_CAT,RAND_SPLIT,FLAG_SPLIT"

/-- The content branch of `SETools.read`: append the cleaned line to the line
list of the currently open section. -/
def appendLine (st : ReadState) (line : String) : ReadState :=
  match st.in_section with
  | 1 => { st with mask := dappend st.mask st.cur_name line }
  | 2 => { st with plot := dappend st.plot st.cur_name line }
  | 3 => { st with stat := dappend st.stat st.cur_name line }
  | 4 => { st with new_cat := dappend st.new_cat st.cur_name line }
  | 5 => { st with rand_split := dappend st.rand_split st.cur_name line }
  | 6 => { st with flag_split := dappend st.flag_split st.cur_name line }
  | _ => st

/-- One iteration of the `while` loop of `SETools.read` on an already cleaned
line.  The Python code first resets `in_section` to `0` when the line is a
header, so a header line is always handled by the no-open-section branch,
a non-header line with no open section is the fatal error, and a non-header
line inside an open section is appended. -/
def readStep (st : ReadState) (line : String) : Except String ReadState :=
  if isHeader line then openSection st line
  else if st.in_section == 0 then .error "No section found"
  else .ok (appendLine st line)

/-- Models `SETools.read`: clean every raw line (dropping blank and comment lines)
and fold the section state machine over the result. -/
def readConfig (lines : List String) : Except String ReadState :=
  (lines.filterMap clean_line).foldlM readStep initState

/-- The all-true boolean vector `np.ones(n, dtype=bool)`. -/
def allTrue (n : Nat) : List Bool := List.replicate n true

/-- The inner loop of `SETools._make_mask` for one MASK section: starting
from the all-true vector, AND in the predicate-mode interpreter result of
every line, skipping the `NO_SAVE` directive.  `interp j acc` stands for
`scatalog.interpreter(j, data, make_compare=True, mask_dict=acc).result`,
where `acc` is the dict of masks built so far. -/
def sectionMask (interp : String → List (String × List Bool) → List Bool)
    (n : Nat) (acc : List (String × List Bool)) (lines : List String) :
    List Bool :=
  lines.foldl
    (fun mt j => if j == "NO_SAVE" then mt else mt.zipWith (· && ·) (interp j acc))
    (allTrue n)

/-- Models `SETools._make_mask`: build the masks in `mask_key` order, each section
seeing the dict of masks already built. -/
def make_mask (interp : String → List (String × List Bool) → List Bool)
    (n : Nat) :
    List String → List (String × List String) → List (String × List Bool) →
    List (String × List Bool)
  | [], _, acc => acc
  | i :: ks, m, acc =>
      make_mask interp n ks m
        (dinsert acc i (sectionMask interp n acc ((dlookup m i).getD [])))

/-- The mask-saving loop of `SETools.process`: a built mask is persisted
exactly when its section's raw line list does not contain `NO_SAVE`. -/
def saved_mask_names (m : List (String × List String))
    (built : List (String × List Bool)) : List String :=
  (built.map Prod.fst).filter
    (fun i => !(((dlookup m i).getD []).contains "NO_SAVE"))

/-- The accumulation loop of the `@`-template interpolation in
`SEPlot._make_plot` (and `_make_scatter`, `_make_hist`): walk the fragments
`s[1:-1]`, appending literal fragments at even positions and stringified
interpreter results at odd positions.  `ev i` stands for
`str(scatalog.interpreter(i, cat, make_compare=False, mask_dict=masks).result)`. -/
def interpLoop (ev : String → String) : Nat → List String → String → String
  | _, [], acc => acc
  | ii, i :: rest, acc =>
      interpLoop ev (ii + 1) rest (acc ++ (if ii % 2 == 0 then i else ev i))

/-- The `@`-template interpolation of `SEPlot`: split on `@`; with at least
three fragments, start from the fragment before the first `@` and process the
inner fragments with `interpLoop`; otherwise keep the string unchanged. -/
def interpolate (ev : String → String) (title : String) : String :=
  let s := sSplit (fun c => c == '@') title
  if s.length ≥ 3 then interpLoop ev 1 (s.drop 1).dropLast (s.headD "")
  else title

/-- Ratio normalization in `SETools._make_rand_split`:
`if ratio >= 1: ratio /= 100`.  Python float arithmetic is modelled exactly
over `ℚ`. -/
def ratioNorm (v : ℚ) : ℚ := if 1 ≤ v then v / 100 else v

/-- Computes `n_keep = int(ceil(cat_size * ratio))` (exact over `ℚ`; for the
non-negative ratios in scope `int` truncation is the identity on the
integral value `ceil` returns). -/
def nkeep (p : Nat) (r : ℚ) : Nat := (Int.ceil ((p : ℚ) * r)).toNat

/-- The drawing loop of `SETools._make_rand_split`: while the kept list has
not reached `n_keep` elements, pop the element at a random position of
`left` and append it to `keep`.  The random source is an arbitrary stream
`draws`, reduced modulo the current pool size exactly as
`np.random.randint(0, len(mask_left))` guarantees; `np.random.randint(0, 0)`
on an empty pool raises, which is the error case. -/
def drawLoop (draws : Nat → Nat) :
    Nat → Nat → List Nat → List Nat → Except String (List Nat × List Nat)
  | 0, _, keep, left => .ok (keep, left)
  | n + 1, step, keep, left =>
      if left.length == 0 then .error "randint low geq high"
      else
        let j := draws step % left.length
        drawLoop draws n (step + 1) (keep ++ [left.getD j 0]) (left.eraseIdx j)

/-- Values stored in a RAND_SPLIT product dict: the boolean pool under
`mask`, index arrays under the `ratio_<pct>` keys. -/
inductive RSVal where
  | bools (bs : List Bool)
  | ids (v : List Nat)
deriving DecidableEq

/-- The `MASK=` branch of `SETools._make_rand_split`: AND every referenced
mask into the pool, failing on a name that was not built. -/
def applyMaskRefs (maskDict : List (String × List Bool)) :
    List Bool → List String → Except String (List Bool)
  | pool, [] => .ok pool
  | pool, k :: names =>
      match dlookup maskDict k with
      | none => .error "mask does not exist"
      | some mk => applyMaskRefs maskDict (pool.zipWith (· && ·) mk) names

/-- One directive line of a RAND_SPLIT section: `RATIO=<v>` re-binds the
(section-crossing) ratio variable, `MASK=<a>,<b>,...` ANDs masks into the
(section-crossing) pool variable, any other `key=value` line is ignored,
and a line without exactly one `=` is a format error.  `pf` stands for
Python `float()` on the value text. -/
def rsLine (pf : String → Option ℚ) (maskDict : List (String × List Bool))
    (st : List Bool × Option ℚ) (j : String) :
    Except String (List Bool × Option ℚ) :=
  let s := sSplit (fun c => c == '=') j
  if s.length != 2 then .error "Not a good format"
  else if s.headD "" == "RATIO" then
    match pf (s.getD 1 "") with
    | none => .error "RATIO is not a number"
    | some x => .ok (st.1, some (ratioNorm x))
  else if s.headD "" == "MASK" then
    match applyMaskRefs maskDict st.1 (sSplit (fun c => c == ',') (s.getD 1 "")) with
    | .error e => .error e
    | .ok p => .ok (p, st.2)
  else .ok st

/-- One RAND_SPLIT section body: process the directive lines, then draw
`n_keep` of the `cat_size = len(np.where(mask)[0])` pool indices and store
the pool under `mask` and the two index arrays under their percentage keys
(`int(ratio*100)` is `⌊ratio·100⌋` for the non-negative ratios in scope).
Returns the section's product dict together with the leaked pool, ratio and
random-stream position.  `rsBody` is the tail of the section body once the
directive lines have fixed the pool and the ratio. -/
def rsBody (draws : Nat → Nat) (step : Nat) (pool2 : List Bool) (r : ℚ) :
    Except String (List (String × RSVal) × List Bool × Option ℚ × Nat) :=
  match drawLoop draws (nkeep (pool2.count true) r) step []
      (List.range (pool2.count true)) with
  | .error e => .error e
  | .ok kl =>
      .ok (dinsert
            (dinsert (dinsert [] "mask" (RSVal.bools pool2))
              ("ratio_" ++ toString (⌊r * 100⌋ : Int)) (RSVal.ids kl.1))
            ("ratio_" ++ toString (100 - (⌊r * 100⌋ : Int))) (RSVal.ids kl.2),
          pool2, some r, step + nkeep (pool2.count true) r)

/-- The directive-line loop of one RAND_SPLIT section. -/
def rsLines (pf : String → Option ℚ) (maskDict : List (String × List Bool)) :
    List Bool × Option ℚ → List String → Except String (List Bool × Option ℚ)
  | st, [] => .ok st
  | st, j :: rest =>
      match rsLine pf maskDict st j with
      | .error e => .error e
      | .ok st2 => rsLines pf maskDict st2 rest

/-- One RAND_SPLIT section: run the directive lines over the section-crossing
pool and ratio state, fail when the ratio is still unbound (Python
`NameError`), then run `rsBody`. -/
def rsSection (pf : String → Option ℚ) (maskDict : List (String × List Bool))
    (draws : Nat → Nat) (pool : List Bool) (ratio : Option ℚ) (step : Nat)
    (lines : List String) :
    Except String (List (String × RSVal) × List Bool × Option ℚ × Nat) :=
  match rsLines pf maskDict (pool, ratio) lines with
  | .error e => .error e
  | .ok st2 =>
      match st2.2 with
      | none => .error "ratio not defined"
      | some r => rsBody draws step st2.1 r

/-- The section loop of `SETools._make_rand_split`.  The pool and the ratio
are initialized once, before the loop, and carry over from one section to
the next. -/
def mrsAux (pf : String → Option ℚ) (maskDict : List (String × List Bool))
    (draws : Nat → Nat) :
    List (String × List String) → List Bool → Option ℚ → Nat →
    List (String × List (String × RSVal)) →
    Except String (List (String × List (String × RSVal)))
  | [], _, _, _, out => .ok out
  | (nm, lines) :: rest, pool, ratio, step, out =>
      match rsSection pf maskDict draws pool ratio step lines with
      | .error e => .error e
      | .ok r =>
          mrsAux pf maskDict draws rest r.2.1 r.2.2.1 r.2.2.2 (dinsert out nm r.1)

/-- Models `SETools._make_rand_split`: the pool starts as the all-true vector over
the full catalog and the ratio starts unbound. -/
def make_rand_split (pf : String → Option ℚ)
    (maskDict : List (String × List Bool)) (draws : Nat → Nat)
    (catSize : Nat) (sections : List (String × List String)) :
    Except String (List (String × List (String × RSVal))) :=
  mrsAux pf maskDict draws sections (allTrue catSize) none 0 []

/-- The mask names referenced by one RAND_SPLIT directive line (the comma
list of a well-formed `MASK=` line, nothing otherwise). -/
def refsOfLine (j : String) : List String :=
  let s := sSplit (fun c => c == '=') j
  if s.length == 2 && s.headD "" == "MASK" then sSplit (fun c => c == ',') (s.getD 1 "")
  else []

/-- All mask names referenced by a RAND_SPLIT section body, in order. -/
def refsOf (lines : List String) : List String := lines.flatMap refsOfLine

/-- AND the named masks into a pool, resolving names against `maskDict`
(specification pool: the intersection of the referenced masks). -/
def poolAfter (maskDict : List (String × List Bool)) (pool : List Bool)
    (names : List String) : List Bool :=
  names.foldl (fun p k => p.zipWith (· && ·) ((dlookup maskDict k).getD [])) pool

/-- Distinct values of a column in first-occurrence order
(`list(set(column))`, whose ordering is unspecified in Python; any fixed
enumeration of the distinct values). -/
def dedupFirst (l : List Int) : List Int :=
  l.foldl (fun acc x => if acc.contains x then acc else acc ++ [x]) []

/-- Computes `np.where(column == v)[0]`: the indices at which the column equals `v`. -/
def idxEq (col : List Int) (v : Int) : List Nat :=
  (List.range col.length).filter (fun t => col.getD t 0 == v)

/-- The line loop of `SETools._make_flag_split` for one section, threading
the section-crossing `param_name` variable: a `PARAM_NAME=<c>` line binds
it, any other well-formed line is the `PARAM_NAME not provided` error, and a
line without exactly one `=` is a format error. -/
def parseFlagLines : Option String → List String → Except String (Option String)
  | pn, [] => .ok pn
  | _, j :: rest =>
      let s := sSplit (fun c => c == '=') j
      if s.length != 2 then .error "Not a good format"
      else if s.headD "" == "PARAM_NAME" then parseFlagLines (some (s.getD 1 "")) rest
      else .error "PARAM_NAME not provided"

/-- The section loop of `SETools._make_flag_split`: initialize each
section's product dict to empty and parse its lines, threading the
section-crossing `param_name` variable. -/
def flagSections : List (String × List String) →
    List (String × List (String × List Nat)) → Option String →
    Except String (List (String × List (String × List Nat)) × Option String)
  | [], acc, pn => .ok (acc, pn)
  | sec :: rest, acc, pn =>
      match parseFlagLines pn sec.2 with
      | .error e => .error e
      | .ok pn2 => flagSections rest (dinsert acc sec.1 []) pn2

/-- Models `SETools._make_flag_split`.  The section loop only initializes each
section's product dict to empty and parses its lines; the partition loop
sits after (not inside) the section loop, so it runs once, for the last
value of the loop variable `i` and the last bound `param_name`, and fails
when that column is absent (an unbound `param_name` raises inside the same
`try` block and is reported the same way). -/
def make_flag_split (cat : List (String × List Int))
    (sections : List (String × List String)) :
    Except String (List (String × List (String × List Nat))) :=
  if sections.length == 0 then .ok []
  else
    match flagSections sections [] none with
    | .error e => .error e
    | .ok fsp =>
      match fsp.2 with
      | none => .error "PARAM_NAME not in catalog"
      | some p =>
        match dlookup cat p with
        | none => .error "PARAM_NAME not in catalog"
        | some col =>
          .ok (fsp.1.map (fun q =>
            if q.1 = ((sections.getLast?).map Prod.fst).getD "" then
              (q.1, (dedupFirst col).foldl
                (fun d v => dinsert d (toString v) (idxEq col v)) [])
            else q))

/-- Values stored in a NEW_CAT product dict: the literal `OUTPUT_FORMAT`
text, or an interpreter-result column. -/
inductive NCVal where
  | str (v : String)
  | arr (v : List Int)
deriving DecidableEq

/-- The output-format tag a supported format string selects in
`SETools.save_new_cat` (`txt` and `ascii` share the ASCII writer). -/
def fmtTag (f : String) : String :=
  if f == "fits" then "fits" else if f == "SEx_cat" then "SEx_cat" else "ascii"

/-- Models `SETools.save_new_cat` up to the actual file writing: pop
`OUTPUT_FORMAT` (failing when absent), dispatch on its value (failing on an
unsupported one), and return the selected format together with the mutated
product dict.  A non-string value compares unequal to every format name and
falls through to the unsupported-format error. -/
def save_new_cat (new_cat : List (String × NCVal)) :
    Except String (String × List (String × NCVal)) :=
  match dlookup new_cat "OUTPUT_FORMAT" with
  | none => .error "OUTPUT_FORMAT not provided"
  | some v =>
    let d := derase new_cat "OUTPUT_FORMAT"
    match v with
    | .str f =>
        if f == "fits" then .ok (fmtTag f, d)
        else if f == "SEx_cat" then .ok (fmtTag f, d)
        else if f == "txt" || f == "ascii" then .ok (fmtTag f, d)
        else .error "Format should be in fits SEx_cat txt"
    | .arr _ => .error "Format should be in fits SEx_cat txt"

/-- Models `SETools.save_rand_split` up to the actual file writing: pop the `mask`
entry (a missing key is Python `KeyError`) and return it together with the
mutated product dict. -/
def save_rand_split (rand_split : List (String × RSVal)) :
    Except String (RSVal × List (String × RSVal)) :=
  match dlookup rand_split "mask" with
  | none => .error "KeyError mask"
  | some m => .ok (m, derase rand_split "mask")

/-- Concrete `float()` stub for the RAND_SPLIT worked example: only the text
`50` parses, to the number 50. -/
def pfC4 : String → Option ℚ := fun s => if s == "50" then some 50 else none

/-- Concrete built-mask dict for the RAND_SPLIT worked example. -/
def mdC4 : List (String × List Bool) := [("m1", [false, true])]

/-- Concrete RAND_SPLIT config for the worked example: section `s1`
references mask `m1`, section `s2` references no mask at all. -/
def secsC4 : List (String × List String) :=
  [("s1", ["RATIO=50", "MASK=m1"]), ("s2", ["RATIO=50"])]

/-- The product dict both sections of the worked example end up with: the
pool `[false, true]` under `mask`, and (because `ratio_50` and
`ratio_100-50` are the same key) only the complementary index array under
`ratio_50`. -/
def entryC4 : List (String × RSVal) :=
  [("mask", RSVal.bools [false, true]), ("ratio_50", RSVal.ids [])]

/-- Concrete predicate-mode interpreter stub for the mask worked examples:
every line evaluates to a boolean vector of length 3. -/
def interpW : String → List (String × List Bool) → List Bool :=
  fun j _ => if j == "A" then [true, false, true] else [false, true, true]

lemma dlookup_dinsert_self {α : Type} (d : List (String × α)) (k : String) (v : α) :
    dlookup (dinsert d k v) k = some v := by
  induction d with
  | nil => simp [dinsert, dlookup]
  | cons p d ih =>
      by_cases hp : p.1 = k
      · simp [dinsert, dlookup, hp]
      · simp [dinsert, dlookup, hp, ih]

lemma dlookup_dinsert_ne {α : Type} (d : List (String × α)) (k k2 : String) (v : α)
    (h : k2 ≠ k) : dlookup (dinsert d k v) k2 = dlookup d k2 := by
  have h2 : ¬ (k = k2) := fun hc => h hc.symm
  induction d with
  | nil =>
      simp [dinsert, dlookup, h2]
  | cons p d ih =>
      by_cases hp : p.1 = k
      · have h3 : ¬ (p.1 = k2) := by rw [hp]; exact h2
        simp [dinsert, dlookup, hp, h2, h3]
      · by_cases hq : p.1 = k2
        · simp [dinsert, dlookup, hp, hq, h, h2]
        · simp [dinsert, dlookup, hp, hq, h, h2, ih]

lemma dinsert_of_none {α : Type} (d : List (String × α)) (k : String) (v : α)
    (h : dlookup d k = none) : dinsert d k v = d ++ [(k, v)] := by
  induction d with
  | nil => rfl
  | cons p d ih =>
      rw [dlookup] at h
      by_cases hp : p.1 = k
      · simp [hp] at h
      · rw [if_neg hp] at h
        simp [dinsert, hp, ih h]

lemma dinsert_length_of_isSome {α : Type} (d : List (String × α)) (k : String) (v : α)
    (h : (dlookup d k).isSome) : (dinsert d k v).length = d.length := by
  induction d with
  | nil => simp [dlookup] at h
  | cons p d ih =>
      rw [dlookup] at h
      by_cases hp : p.1 = k
      · simp [dinsert, hp]
      · rw [if_neg hp] at h
        simp [dinsert, hp, ih h]

lemma dappend_dlookup (d : List (String × List String)) (k : String) (v : String) :
    dlookup (dappend d k v) k = (dlookup d k).map (fun ls => ls ++ [v]) := by
  induction d with
  | nil => rfl
  | cons p d ih =>
      by_cases hp : p.1 = k
      · simp [dappend, dlookup, hp]
      · simp [dappend, dlookup, hp, ih]

lemma dappend_dlookup_ne (d : List (String × List String)) (k k2 : String) (v : String)
    (h : k2 ≠ k) : dlookup (dappend d k v) k2 = dlookup d k2 := by
  have h2 : ¬ (k = k2) := fun hc => h hc.symm
  induction d with
  | nil => rfl
  | cons p d ih =>
      by_cases hp : p.1 = k
      · have h3 : ¬ (p.1 = k2) := by rw [hp]; exact h2
        simp [dappend, dlookup, hp, h2, h3]
      · by_cases hq : p.1 = k2
        · simp [dappend, dlookup, hp, hq, h, h2]
        · simp [dappend, dlookup, hp, hq, h, h2, ih]

lemma dlookup_eq_none_of_not_mem {α : Type} (d : List (String × α)) (k : String)
    (h : k ∉ d.map Prod.fst) : dlookup d k = none := by
  induction d with
  | nil => rfl
  | cons p d ih =>
      simp only [List.map_cons, List.mem_cons, not_or] at h
      rw [dlookup, if_neg (fun hc => h.1 hc.symm)]
      exact ih h.2

lemma derase_dlookup_of_nodup {α : Type} (d : List (String × α)) (k : String)
    (h : (d.map Prod.fst).Nodup) : dlookup (derase d k) k = none := by
  induction d with
  | nil => rfl
  | cons p d ih =>
      simp only [List.map_cons, List.nodup_cons] at h
      by_cases hp : p.1 = k
      · rw [derase, if_pos hp]
        apply dlookup_eq_none_of_not_mem
        rw [← hp]
        exact h.1
      · rw [derase, if_neg hp, dlookup, if_neg hp]
        exact ih h.2

/-- Claim C7: during config reading, a non-header line while no section is
open is the fatal no-section error; a header whose kind is not one of the six
recognized kinds is fatal; a header while a section is open behaves exactly
as if the section had already been closed (`in_section` reset to `0`) and on
success opens a new section; and a non-header line inside an open section is
appended to the current section's line list (`dappend` extends exactly the
entry of the current name). -/
theorem read_machine_spec :
    (∀ st line, isHeader line = false → st.in_section = 0 →
      readStep st line = .error "No section found") ∧
    (∀ st line, isHeader line = true →
      secKind (headerSec line) ∉
        (["MASK", "PLOT", "STAT", "NEW_CAT", "RAND_SPLIT", "FLAG_SPLIT"] : List String) →
      readStep st line =
        .error "Section has to be in MASK,PLOT,STAT,NEW_CAT,RAND_SPLIT,FLAG_SPLIT") ∧
    (∀ st line, isHeader line = true →
      readStep st line = readStep { st with in_section := 0 } line) ∧
    (∀ st line st2, isHeader line = true → readStep st line = .ok st2 →
      st2.in_section ≠ 0) ∧
    (∀ st line, isHeader line = false → st.in_section ≠ 0 →
      readStep st line = .ok (appendLine st line)) ∧
    (∀ (d : List (String × List String)) k v,
      dlookup (dappend d k v) k = (dlookup d k).map (fun ls => ls ++ [v])) := by
  refine ⟨?_, ?_, ?_, ?_, ?_, ?_⟩
  · intro st line h1 h2
    simp [readStep, h1, h2]
  · intro st line h1 h2
    simp only [List.mem_cons, List.mem_singleton, not_or] at h2
    obtain ⟨n1, n2, n3, n4, n5, n6, -⟩ := h2
    simp [readStep, h1, openSection, n1, n2, n3, n4, n5, n6]
  · intro st line h1
    simp only [readStep, h1, if_true]
    rfl
  · intro st line st2 h1 h2
    simp only [readStep, h1, if_true, openSection] at h2
    split at h2
    · injection h2 with h3
      subst h3
      simp
    · split at h2
      · injection h2 with h3
        subst h3
        simp
      · split at h2
        · injection h2 with h3
          subst h3
          simp
        · split at h2
          · injection h2 with h3
            subst h3
            simp
          · split at h2
            · injection h2 with h3
              subst h3
              simp
            · split at h2
              · injection h2 with h3
                subst h3
                simp
              · cases h2
  · intro st line h1 h2
    simp [readStep, h1, h2]
  · exact dappend_dlookup

/-- Closed instance of `read_machine_spec`: the no-section error, the
unknown-kind error, header-while-open behaviour, and the append behaviour,
on concrete states and lines. -/
theorem read_machine_spec_witness :
    readStep initState "A=1" = .error "No section found" ∧
    readStep initState "[FOO]" =
      .error "Section has to be in MASK,PLOT,STAT,NEW_CAT,RAND_SPLIT,FLAG_SPLIT" ∧
    readStep ⟨[("m", [])], [], [], [], [], [], ["m"], 1, "m"⟩ "[PLOT]" =
      readStep ⟨[("m", [])], [], [], [], [], [], ["m"], 0, "m"⟩ "[PLOT]" ∧
    readStep ⟨[("m", [])], [], [], [], [], [], ["m"], 1, "m"⟩ "A=1" =
      .ok (appendLine ⟨[("m", [])], [], [], [], [], [], ["m"], 1, "m"⟩ "A=1") ∧
    dlookup (dappend [("m", ["X"])] "m" "A=1") "m" = some ["X", "A=1"] :=
  ⟨read_machine_spec.1 initState "A=1" (by decide) rfl,
   read_machine_spec.2.1 initState "[FOO]" (by decide) (by decide),
   read_machine_spec.2.2.1 ⟨[("m", [])], [], [], [], [], [], ["m"], 1, "m"⟩ "[PLOT]"
     (by decide),
   read_machine_spec.2.2.2.2.1 ⟨[("m", [])], [], [], [], [], [], ["m"], 1, "m"⟩ "A=1"
     (by decide) (by decide),
   by rw [read_machine_spec.2.2.2.2.2 [("m", ["X"])] "m" "A=1"]; rfl⟩

/-- Claim C9 counterexample: after the explicitly named section
`[MASK:mask_2]`, an unnamed `[MASK]` section receives the generated name
`mask_2` (one section of that kind is recorded, so `n = 2`), which collides:
the parsed config holds a single `MASK` entry whose line list is that of the
second section — the first section's line list `A=1` has been replaced —
and the flat mask-name list contains the name twice. -/
theorem section_name_collision_cx :
    readConfig ["[MASK:mask_2]", "A=1", "[MASK]", "B=2"] =
      .ok ⟨[("mask_2", ["B=2"])], [], [], [], [], [], ["mask_2", "mask_2"], 1, "mask_2"⟩ ∧
    ¬ (["mask_2", "mask_2"] : List String).Nodup :=
  ⟨rfl, by decide⟩

/-- Claim C9 (amended): an unnamed MASK section receives the generated name
`mask_<n>` with `n` the number of MASK sections currently recorded plus one;
a section whose (explicit or generated) name is new is appended as a fresh
entry, while a section whose name collides with an existing one replaces
that section's line list in place (the dict keeps its length and the old
list is gone) — so names are unique only when no such collision occurs. -/
theorem section_naming_amended :
    (∀ st, readStep st "[MASK]" = .ok { st with
        in_section := 1
        cur_name := "mask_" ++ toString (st.mask.length + 1)
        mask_key := st.mask_key ++ ["mask_" ++ toString (st.mask.length + 1)]
        mask := dinsert st.mask ("mask_" ++ toString (st.mask.length + 1)) [] }) ∧
    (∀ (d : List (String × List String)) k v, dlookup d k = none →
      dinsert d k v = d ++ [(k, v)]) ∧
    (∀ (d : List (String × List String)) k v, (dlookup d k).isSome →
      (dinsert d k v).length = d.length ∧ dlookup (dinsert d k v) k = some v) :=
  ⟨fun _ => rfl,
   fun d k v h => dinsert_of_none d k v h,
   fun d k v h => ⟨dinsert_length_of_isSome d k v h, dlookup_dinsert_self d k v⟩⟩

/-- Closed instance of `section_naming_amended` on concrete inputs. -/
theorem section_naming_amended_witness :
    readStep initState "[MASK]" =
      .ok ⟨[("mask_1", [])], [], [], [], [], [], ["mask_1"], 1, "mask_1"⟩ ∧
    dinsert ([("a", ["x"])] : List (String × List String)) "b" [] =
      [("a", ["x"]), ("b", [])] ∧
    (dinsert ([("a", ["x"])] : List (String × List String)) "a" []).length = 1 :=
  ⟨section_naming_amended.1 initState,
   section_naming_amended.2.1 [("a", ["x"])] "b" [] rfl,
   (section_naming_amended.2.2 [("a", ["x"])] "a" [] (by decide)).1⟩

lemma zipWith_and_getD (a b : List Bool) (t : Nat) (ha : t < a.length)
    (hb : t < b.length) :
    (a.zipWith (· && ·) b).getD t false = (a.getD t false && b.getD t false) := by
  induction a generalizing b t with
  | nil => simp at ha
  | cons x a ih =>
      cases b with
      | nil => simp at hb
      | cons y b =>
          cases t with
          | zero => simp [List.zipWith]
          | succ t =>
              simp only [List.zipWith, List.getD_cons_succ]
              exact ih b t (Nat.lt_of_succ_lt_succ ha) (Nat.lt_of_succ_lt_succ hb)

lemma sectionMask_core_length (interp : String → List (String × List Bool) → List Bool)
    (n : Nat) (acc : List (String × List Bool))
    (hint : ∀ j d, (interp j d).length = n) :
    ∀ (lines : List String) (mt : List Bool), mt.length = n →
      (lines.foldl
        (fun mt j => if j == "NO_SAVE" then mt else mt.zipWith (· && ·) (interp j acc))
        mt).length = n := by
  intro lines
  induction lines with
  | nil => intro mt h; exact h
  | cons j rest ih =>
      intro mt h
      by_cases hj : j == "NO_SAVE"
      · simp only [List.foldl_cons, hj, if_true]
        exact ih mt h
      · simp only [Bool.not_eq_true] at hj
        simp only [List.foldl_cons, hj, Bool.false_eq_true, if_false]
        exact ih _ (by rw [List.length_zipWith, h, hint j acc, Nat.min_self])

lemma sectionMask_core_getD (interp : String → List (String × List Bool) → List Bool)
    (n : Nat) (acc : List (String × List Bool))
    (hint : ∀ j d, (interp j d).length = n) :
    ∀ (lines : List String) (mt : List Bool) (t : Nat), mt.length = n → t < n →
      (lines.foldl
        (fun mt j => if j == "NO_SAVE" then mt else mt.zipWith (· && ·) (interp j acc))
        mt).getD t false =
      (mt.getD t false &&
        (lines.filter (fun j => j != "NO_SAVE")).all
          (fun j => (interp j acc).getD t false)) := by
  intro lines
  induction lines with
  | nil => intro mt t h ht; simp
  | cons j rest ih =>
      intro mt t h ht
      by_cases hj : j == "NO_SAVE"
      · simp only [List.foldl_cons, List.filter_cons, hj, if_true, Bool.not_eq_true,
          bne_self_eq_false]
        have hj2 : (j != "NO_SAVE") = false := by
          simp only [bne, hj, Bool.not_true]
        simp only [hj2, Bool.false_eq_true, if_false]
        exact ih mt t h ht
      · simp only [Bool.not_eq_true] at hj
        have hj2 : (j != "NO_SAVE") = true := by
          simp only [bne, hj, Bool.not_false]
        simp only [List.foldl_cons, hj, Bool.false_eq_true, if_false, List.filter_cons,
          hj2, if_true, List.all_cons]
        rw [ih _ t (by rw [List.length_zipWith, h, hint j acc, Nat.min_self]) ht]
        rw [zipWith_and_getD mt (interp j acc) t (by rw [h]; exact ht)
          (by rw [hint j acc]; exact ht)]
        rw [Bool.and_assoc]

lemma sectionMask_skip (interp : String → List (String × List Bool) → List Bool)
    (n : Nat) (acc : List (String × List Bool)) (lines : List String) :
    sectionMask interp n acc lines =
      sectionMask interp n acc (lines.filter (fun j => j != "NO_SAVE")) := by
  unfold sectionMask
  generalize allTrue n = mt
  induction lines generalizing mt with
  | nil => rfl
  | cons j rest ih =>
      by_cases hj : j == "NO_SAVE"
      · have hj2 : (j != "NO_SAVE") = false := by simp only [bne, hj, Bool.not_true]
        simp only [List.foldl_cons, List.filter_cons, hj, if_true, hj2,
          Bool.false_eq_true, if_false]
        exact ih mt
      · simp only [Bool.not_eq_true] at hj
        have hj2 : (j != "NO_SAVE") = true := by simp only [bne, hj, Bool.not_false]
        simp only [List.foldl_cons, List.filter_cons, hj, Bool.false_eq_true, if_false,
          hj2, if_true]
        exact ih _

lemma make_mask_preserves_isSome (interp : String → List (String × List Bool) → List Bool)
    (n : Nat) :
    ∀ (ks : List String) (m : List (String × List String))
      (acc : List (String × List Bool)) (i : String),
      (dlookup acc i).isSome → (dlookup (make_mask interp n ks m acc) i).isSome := by
  intro ks
  induction ks with
  | nil => intro m acc i h; exact h
  | cons k ks ih =>
      intro m acc i h
      rw [make_mask]
      apply ih
      by_cases hik : i = k
      · rw [hik, dlookup_dinsert_self]
        rfl
      · rw [dlookup_dinsert_ne _ _ _ _ hik]
        exact h

lemma make_mask_mem_isSome (interp : String → List (String × List Bool) → List Bool)
    (n : Nat) :
    ∀ (ks : List String) (m : List (String × List String))
      (acc : List (String × List Bool)) (i : String),
      i ∈ ks → (dlookup (make_mask interp n ks m acc) i).isSome := by
  intro ks
  induction ks with
  | nil => intro m acc i h; cases h
  | cons k ks ih =>
      intro m acc i h
      rw [make_mask]
      rcases List.mem_cons.mp h with h1 | h2
      · apply make_mask_preserves_isSome
        rw [h1, dlookup_dinsert_self]
        rfl
      · exact ih m _ i h2

lemma make_mask_values_length (interp : String → List (String × List Bool) → List Bool)
    (n : Nat) (hint : ∀ j d, (interp j d).length = n) :
    ∀ (ks : List String) (m : List (String × List String))
      (acc : List (String × List Bool)),
      (∀ i0 b0, dlookup acc i0 = some b0 → b0.length = n) →
      ∀ i bm, dlookup (make_mask interp n ks m acc) i = some bm → bm.length = n := by
  intro ks
  induction ks with
  | nil => intro m acc hacc i bm h; exact hacc i bm h
  | cons k ks ih =>
      intro m acc hacc i bm h
      rw [make_mask] at h
      refine ih m _ ?_ i bm h
      intro i0 b0 h0
      by_cases hik : i0 = k
      · rw [hik, dlookup_dinsert_self] at h0
        injection h0 with h1
        rw [← h1]
        unfold sectionMask
        exact sectionMask_core_length interp n acc hint _ _ (by simp [allTrue])
      · rw [dlookup_dinsert_ne _ _ _ _ hik] at h0
        exact hacc i0 b0 h0

lemma allTrue_getD : ∀ (n t : Nat), t < n → (allTrue n).getD t false = true := by
  intro n
  induction n with
  | zero => intro t ht; cases ht
  | succ n ih =>
      intro t ht
      cases t with
      | zero => rfl
      | succ t =>
          simp only [allTrue, List.replicate, List.getD_cons_succ]
          exact ih t (Nat.lt_of_succ_lt_succ ht)

/-- Claim C1: for every MASK section, the built mask is a boolean vector of
length `N` equal to the AND, in declaration order, of the predicate-mode
results of every non-directive constraint line, seeded with the all-true
vector (position `t` holds exactly when every non-`NO_SAVE` line holds at
`t`); a section with zero constraint lines yields the all-true vector of
length `N`; and every section name in `mask_key` receives a built mask,
every built mask having length `N`.  The external expression evaluator is
abstracted by `interp`, whose predicate mode returns a boolean vector of
length `N` by its contract. -/
theorem mask_build_spec (interp : String → List (String × List Bool) → List Bool)
    (n : Nat) (hint : ∀ j d, (interp j d).length = n) :
    (∀ acc lines, (sectionMask interp n acc lines).length = n) ∧
    (∀ acc lines t, t < n →
      (sectionMask interp n acc lines).getD t false =
        (lines.filter (fun j => j != "NO_SAVE")).all
          (fun j => (interp j acc).getD t false)) ∧
    (∀ acc, sectionMask interp n acc [] = allTrue n) ∧
    (∀ ks m i, i ∈ ks → (dlookup (make_mask interp n ks m []) i).isSome) ∧
    (∀ ks m i bm, dlookup (make_mask interp n ks m []) i = some bm →
      bm.length = n) := by
  refine ⟨?_, ?_, ?_, ?_, ?_⟩
  · intro acc lines
    unfold sectionMask
    exact sectionMask_core_length interp n acc hint lines _ (by simp [allTrue])
  · intro acc lines t ht
    unfold sectionMask
    rw [sectionMask_core_getD interp n acc hint lines _ t (by simp [allTrue]) ht]
    rw [allTrue_getD n t ht, Bool.true_and]
  · intro acc
    rfl
  · intro ks m i h
    exact make_mask_mem_isSome interp n ks m [] i h
  · intro ks m i bm h
    refine make_mask_values_length interp n hint ks m [] ?_ i bm h
    intro i0 b0 h0
    cases h0

/-- Closed instance of `mask_build_spec` with a concrete three-row
interpreter stub: mask length, the pointwise AND characterization, the
empty-section all-true case and availability of a built mask. -/
theorem mask_build_spec_witness :
    (sectionMask interpW 3 [] ["A", "B"]).length = 3 ∧
    (sectionMask interpW 3 [] ["A", "NO_SAVE"]).getD 0 false =
      (["A", "NO_SAVE"].filter (fun j => j != "NO_SAVE")).all
        (fun j => (interpW j []).getD 0 false) ∧
    sectionMask interpW 3 [] [] = allTrue 3 ∧
    (dlookup (make_mask interpW 3 ["s"] [("s", ["A"])] []) "s").isSome := by
  have hW : ∀ j d, (interpW j d).length = 3 := by
    intro j d
    simp only [interpW]
    split
    · rfl
    · rfl
  exact ⟨(mask_build_spec interpW 3 hW).1 [] ["A", "B"],
    (mask_build_spec interpW 3 hW).2.1 [] ["A", "NO_SAVE"] 0 (by decide),
    (mask_build_spec interpW 3 hW).2.2.1 [],
    (mask_build_spec interpW 3 hW).2.2.2.1 ["s"] [("s", ["A"])] "s" (by simp)⟩

/-- Claim C5: a `NO_SAVE` line is skipped during evaluation (the section's
mask equals the mask of the remaining lines only), the mask is still built
and available under its name for later reference, and the saving loop of
`process` persists a mask exactly when its section's line list does not
contain `NO_SAVE`. -/
theorem no_save_spec (interp : String → List (String × List Bool) → List Bool)
    (n : Nat) :
    (∀ acc lines, sectionMask interp n acc lines =
      sectionMask interp n acc (lines.filter (fun j => j != "NO_SAVE"))) ∧
    (∀ ks m i, i ∈ ks → (dlookup (make_mask interp n ks m []) i).isSome) ∧
    (∀ (m : List (String × List String)) (built : List (String × List Bool)) i,
      i ∈ built.map Prod.fst →
        ("NO_SAVE" ∈ (dlookup m i).getD [] → i ∉ saved_mask_names m built) ∧
        ("NO_SAVE" ∉ (dlookup m i).getD [] → i ∈ saved_mask_names m built)) := by
  refine ⟨?_, ?_, ?_⟩
  · intro acc lines
    exact sectionMask_skip interp n acc lines
  · intro ks m i h
    exact make_mask_mem_isSome interp n ks m [] i h
  · intro m built i h
    constructor
    · intro hm hc
      rw [saved_mask_names, List.mem_filter] at hc
      have h2 : ((dlookup m i).getD []).contains "NO_SAVE" = false := by
        simpa using hc.2
      have h3 : ((dlookup m i).getD []).contains "NO_SAVE" = true :=
        List.elem_iff.mpr hm
      cases h3.symm.trans h2
    · intro hm
      rw [saved_mask_names, List.mem_filter]
      refine ⟨h, ?_⟩
      simp [List.elem_iff, hm]

/-- Closed instance of `no_save_spec`: skipping, availability and the
persistence decision on a concrete two-section config. -/
theorem no_save_spec_witness :
    sectionMask interpW 3 [] ["A", "NO_SAVE"] =
      sectionMask interpW 3 [] (["A", "NO_SAVE"].filter (fun j => j != "NO_SAVE")) ∧
    (dlookup (make_mask interpW 3 ["a"] [("a", ["NO_SAVE", "A"])] []) "a").isSome ∧
    "a" ∉ saved_mask_names [("a", ["NO_SAVE", "A"]), ("b", ["A"])]
      [("a", [true]), ("b", [true])] ∧
    "b" ∈ saved_mask_names [("a", ["NO_SAVE", "A"]), ("b", ["A"])]
      [("a", [true]), ("b", [true])] :=
  ⟨(no_save_spec interpW 3).1 [] ["A", "NO_SAVE"],
   (no_save_spec interpW 3).2.1 ["a"] [("a", ["NO_SAVE", "A"])] "a" (by simp),
   ((no_save_spec interpW 3).2.2 [("a", ["NO_SAVE", "A"]), ("b", ["A"])]
     [("a", [true]), ("b", [true])] "a" (by simp)).1 (by decide),
   ((no_save_spec interpW 3).2.2 [("a", ["NO_SAVE", "A"]), ("b", ["A"])]
     [("a", [true]), ("b", [true])] "b" (by simp)).2 (by decide)⟩

/-- Claim C6 counterexample: with an evaluator sending every expression to
the string `5`, the template `a@X@b` interpolates to `a5`, not to the
claimed `a` ++ `5` ++ `b`: the literal text after the final `@` marker is
discarded (the loop runs over the fragments strictly between the first and
the last marker and the last fragment is never appended). -/
theorem interp_trailing_cx :
    interpolate (fun _ => "5") "a@X@b" = "a5" ∧ "a5" ≠ "a5b" :=
  ⟨rfl, by decide⟩

/-- Claim C6 (amended): a template with at least two `@` markers is
interpolated as the text before the first marker followed by the alternating
literal/stringified-result fragments strictly between the first and last
marker — in particular `text@expr@moretext` yields `text ++ str(result)`,
with `moretext` discarded; a string with fewer than two markers is kept
unchanged as literal text. -/
theorem interp_amended :
    (∀ (ev : String → String) (t e m : String),
      sSplit (fun c => c == '@') (t ++ "@" ++ e ++ "@" ++ m) = [t, e, m] →
      interpolate ev (t ++ "@" ++ e ++ "@" ++ m) = t ++ ev e) ∧
    (∀ (ev : String → String) (s : String),
      (sSplit (fun c => c == '@') s).length < 3 → interpolate ev s = s) := by
  constructor
  · intro ev t e m h
    simp only [interpolate, h]
    norm_num
    simp [interpLoop]
  · intro ev s h
    simp only [interpolate]
    rw [if_neg (by omega)]

/-- Closed instance of `interp_amended` on concrete templates. -/
theorem interp_amended_witness :
    interpolate (fun _ => "7") ("x" ++ "@" ++ "E" ++ "@" ++ "y") =
      "x" ++ (fun _ => "7") "E" ∧
    interpolate (fun _ => "7") "no markers" = "no markers" :=
  ⟨interp_amended.1 (fun _ => "7") "x" "E" "y" rfl,
   interp_amended.2 (fun _ => "7") "no markers" (by decide)⟩

lemma getD_cons_eraseIdx : ∀ (l : List Nat) (j : Nat), j < l.length →
    (l.getD j 0 :: l.eraseIdx j).Perm l := by
  intro l
  induction l with
  | nil => intro j h; cases h
  | cons x xs ih =>
      intro j h
      cases j with
      | zero => exact .refl _
      | succ j =>
          simp only [List.getD_cons_succ, List.eraseIdx]
          exact (List.Perm.swap x (xs.getD j 0) (xs.eraseIdx j)).trans
            ((ih j (Nat.lt_of_succ_lt_succ h)).cons x)

lemma drawLoop_ok (draws : Nat → Nat) :
    ∀ (n step : Nat) (keep left : List Nat), n ≤ left.length →
    ∃ k2 l2, drawLoop draws n step keep left = .ok (k2, l2) ∧
      k2.length = keep.length + n ∧ l2.length = left.length - n ∧
      (k2 ++ l2).Perm (keep ++ left) := by
  intro n
  induction n with
  | zero => intro step keep left h; exact ⟨keep, left, rfl, by omega, by omega, .refl _⟩
  | succ n ih =>
      intro step keep left h
      have hl : left.length ≠ 0 := by omega
      have hc : (left.length == 0) = false := by simpa using hl
      have hjl : draws step % left.length < left.length := Nat.mod_lt _ (by omega)
      have hel : (left.eraseIdx (draws step % left.length)).length = left.length - 1 := by
        rw [List.length_eraseIdx]
        simp [hjl]
      obtain ⟨k2, l2, heq, hk, hlen, hperm⟩ :=
        ih (step + 1) (keep ++ [left.getD (draws step % left.length) 0])
          (left.eraseIdx (draws step % left.length)) (by omega)
      refine ⟨k2, l2, ?_, ?_, ?_, ?_⟩
      · rw [drawLoop, hc]
        simpa using heq
      · rw [hk, List.length_append, List.length_singleton]
        omega
      · rw [hlen, hel]
        omega
      · refine hperm.trans ?_
        rw [List.append_assoc]
        exact List.Perm.append_left keep
          (getD_cons_eraseIdx left (draws step % left.length) hjl)

/-- Claim C2: for a pool of size `P` and an input ratio `v` (a value `≥ 1`
is divided by 100, so input 50 behaves as 0.5), and for every stream of
random draws, the drawing loop terminates with a kept index list of exactly
`⌈P·r⌉` distinct indices and a complementary list of exactly `P − ⌈P·r⌉`
indices, the two disjoint and no index drawn twice.  Python float
arithmetic is modelled exactly over `ℚ`. -/
theorem rand_split_draw_spec (v : ℚ) (P : Nat) (draws : Nat → Nat)
    (_hv0 : 0 < v) (h1 : v ≤ 100) :
    ratioNorm 50 = 1 / 2 ∧
    ∃ keep left,
      drawLoop draws (nkeep P (ratioNorm v)) 0 [] (List.range P) = .ok (keep, left) ∧
      keep.length = nkeep P (ratioNorm v) ∧
      left.length = P - nkeep P (ratioNorm v) ∧
      keep.Nodup ∧ left.Nodup ∧ ∀ x ∈ keep, x ∉ left := by
  constructor
  · norm_num [ratioNorm]
  · have hr1 : ratioNorm v ≤ 1 := by
      unfold ratioNorm
      split
      · linarith
      · linarith
    have hk : nkeep P (ratioNorm v) ≤ P := by
      unfold nkeep
      have hm : (P : ℚ) * ratioNorm v ≤ (P : ℚ) := by
        nlinarith [Nat.cast_nonneg (α := ℚ) P]
      have hcl : Int.ceil ((P : ℚ) * ratioNorm v) ≤ (P : Int) := by
        calc Int.ceil ((P : ℚ) * ratioNorm v) ≤ Int.ceil ((P : ℚ)) :=
              Int.ceil_le_ceil hm
          _ = (P : Int) := Int.ceil_natCast P
      omega
    obtain ⟨keep, left, heq, hk2, hl2, hperm⟩ :=
      drawLoop_ok draws (nkeep P (ratioNorm v)) 0 [] (List.range P)
        (by rw [List.length_range]; exact hk)
    have hnd : (keep ++ left).Nodup := by
      rw [List.Perm.nodup_iff hperm]
      simpa using List.nodup_range P
    rw [List.nodup_append] at hnd
    exact ⟨keep, left, heq, by simpa using hk2, by rw [hl2, List.length_range],
      hnd.1, hnd.2.1, fun x hx hx2 => hnd.2.2 hx hx2⟩

/-- Closed instance of `rand_split_draw_spec`: the pool of 9 rows with input
ratio 50 and the all-zero draw stream. -/
theorem rand_split_draw_spec_witness :
    ratioNorm 50 = 1 / 2 ∧
    ∃ keep left,
      drawLoop (fun _ => 0) (nkeep 9 (ratioNorm 50)) 0 [] (List.range 9) =
        .ok (keep, left) ∧
      keep.length = nkeep 9 (ratioNorm 50) ∧
      left.length = 9 - nkeep 9 (ratioNorm 50) ∧
      keep.Nodup ∧ left.Nodup ∧ ∀ x ∈ keep, x ∉ left :=
  rand_split_draw_spec 50 9 (fun _ => 0) (by norm_num) (by norm_num)

lemma ratio_key_ne_mask (s : String) : ("ratio_" ++ s) ≠ "mask" := by
  intro h
  have h2 := congrArg String.length h
  rw [String.length_append] at h2
  have h3 : ("ratio_" : String).length = 6 := by decide
  have h4 : ("mask" : String).length = 4 := by decide
  omega

lemma poolAfter_append (md : List (String × List Bool)) (p : List Bool)
    (a b : List String) :
    poolAfter md p (a ++ b) = poolAfter md (poolAfter md p a) b := by
  unfold poolAfter
  induction a generalizing p with
  | nil => rfl
  | cons x a ih =>
      simp only [List.cons_append, List.foldl_cons]
      exact ih _

lemma refsOf_cons (j : String) (rest : List String) :
    refsOf (j :: rest) = refsOfLine j ++ refsOf rest := by
  simp [refsOf]


lemma applyMaskRefs_ok (md : List (String × List Bool)) :
    ∀ (names : List String) (pool p2 : List Bool),
      applyMaskRefs md pool names = .ok p2 →
      p2 = poolAfter md pool names ∧ ∀ k ∈ names, (dlookup md k).isSome = true := by
  intro names
  induction names with
  | nil =>
      intro pool p2 h
      simp only [applyMaskRefs] at h
      injection h with h1
      exact ⟨h1.symm, by intro k hk; cases hk⟩
  | cons k names ih =>
      intro pool p2 h
      simp only [applyMaskRefs] at h
      cases hd : dlookup md k with
      | none => rw [hd] at h; simp at h
      | some mk =>
          rw [hd] at h
          have h2 := ih (pool.zipWith (· && ·) mk) p2 h
          refine ⟨?_, ?_⟩
          · rw [h2.1]
            unfold poolAfter
            rw [List.foldl_cons, hd]
            rfl
          · intro k2 hk2
            rcases List.mem_cons.mp hk2 with h1 | h1
            · rw [h1, hd]; rfl
            · exact h2.2 k2 h1

lemma rsLine_ok (pf : String → Option ℚ) (md : List (String × List Bool))
    (st st2 : List Bool × Option ℚ) (j : String)
    (h : rsLine pf md st j = .ok st2) :
    st2.1 = poolAfter md st.1 (refsOfLine j) ∧
      ∀ k ∈ refsOfLine j, (dlookup md k).isSome = true := by
  simp only [rsLine] at h
  simp only [refsOfLine]
  by_cases hl : (sSplit (fun c => c == '=') j).length = 2
  · have e1 : ((sSplit (fun c => c == '=') j).length != 2) = false := by
      rw [hl]
      decide
    rw [e1] at h
    simp only [Bool.false_eq_true, if_false] at h
    by_cases hm : (sSplit (fun c => c == '=') j).headD "" = "MASK"
    · have e2 : ((sSplit (fun c => c == '=') j).headD "" == "RATIO") = false := by
        rw [hm]
        decide
      have e3 : ((sSplit (fun c => c == '=') j).headD "" == "MASK") = true := by
        rw [hm]
        decide
      have e4 : ((sSplit (fun c => c == '=') j).length == 2 &&
          ((sSplit (fun c => c == '=') j).headD "" == "MASK")) = true := by
        rw [hl, hm]
        decide
      rw [e2, e3] at h
      simp only [Bool.false_eq_true, if_false, if_true] at h
      rw [e4]
      simp only [if_true]
      cases ha : applyMaskRefs md st.1
          (sSplit (fun c => c == ',') ((sSplit (fun c => c == '=') j).getD 1 "")) with
      | error e => rw [ha] at h; simp at h
      | ok p =>
          rw [ha] at h
          injection h with h1
          have h2 := applyMaskRefs_ok md _ st.1 p ha
          rw [← h1]
          exact ⟨h2.1, h2.2⟩
    · have e3 : ((sSplit (fun c => c == '=') j).headD "" == "MASK") = false := by
        rw [beq_eq_false_iff_ne]
        exact hm
      have e4 : ((sSplit (fun c => c == '=') j).length == 2 &&
          ((sSplit (fun c => c == '=') j).headD "" == "MASK")) = false := by
        rw [e3, Bool.and_false]
      rw [e4]
      simp only [Bool.false_eq_true, if_false]
      by_cases hr : (sSplit (fun c => c == '=') j).headD "" = "RATIO"
      · have e2 : ((sSplit (fun c => c == '=') j).headD "" == "RATIO") = true := by
          rw [hr]
          decide
        rw [e2] at h
        simp only [if_true] at h
        cases hp : pf ((sSplit (fun c => c == '=') j).getD 1 "") with
        | none => rw [hp] at h; simp at h
        | some x =>
            rw [hp] at h
            injection h with h1
            rw [← h1]
            exact ⟨rfl, by intro k hk; cases hk⟩
      · have e2 : ((sSplit (fun c => c == '=') j).headD "" == "RATIO") = false := by
          rw [beq_eq_false_iff_ne]
          exact hr
        rw [e2, e3] at h
        simp only [Bool.false_eq_true, if_false] at h
        injection h with h1
        rw [← h1]
        exact ⟨rfl, by intro k hk; cases hk⟩
  · have e1 : ((sSplit (fun c => c == '=') j).length != 2) = true := by
      rw [bne_iff_ne]
      exact hl
    rw [e1] at h
    simp only [if_true] at h
    simp at h

lemma rsSection_ok_decomp (pf : String → Option ℚ) (md : List (String × List Bool))
    (draws : Nat → Nat) (pool : List Bool) (ratio : Option ℚ) (step : Nat)
    (lines : List String) (r : List (String × RSVal) × List Bool × Option ℚ × Nat)
    (h : rsSection pf md draws pool ratio step lines = .ok r) :
    ∃ st2 rr, rsLines pf md (pool, ratio) lines = .ok st2 ∧ st2.2 = some rr ∧
      rsBody draws step st2.1 rr = .ok r := by
  simp only [rsSection] at h
  cases hls : rsLines pf md (pool, ratio) lines with
  | error e => rw [hls] at h; simp at h
  | ok st2 =>
      rw [hls] at h
      simp only [] at h
      cases hr2 : st2.2 with
      | none => rw [hr2] at h; simp at h
      | some rr =>
          rw [hr2] at h
          simp only [] at h
          exact ⟨st2, rr, rfl, hr2, h⟩

lemma rsLines_ok (pf : String → Option ℚ) (md : List (String × List Bool)) :
    ∀ (lines : List String) (st st2 : List Bool × Option ℚ),
      rsLines pf md st lines = .ok st2 →
      st2.1 = poolAfter md st.1 (refsOf lines) ∧
        ∀ k ∈ refsOf lines, (dlookup md k).isSome = true := by
  intro lines
  induction lines with
  | nil =>
      intro st st2 h
      simp only [rsLines] at h
      injection h with h1
      rw [← h1]
      exact ⟨rfl, by intro k hk; cases hk⟩
  | cons j rest ih =>
      intro st st2 h
      simp only [rsLines] at h
      cases hj : rsLine pf md st j with
      | error e => rw [hj] at h; simp at h
      | ok stm =>
          rw [hj] at h
          have h1 := rsLine_ok pf md st stm j hj
          have h2 := ih stm st2 h
          rw [refsOf_cons]
          constructor
          · rw [h2.1, h1.1, poolAfter_append]
          · intro k hk
            rcases List.mem_append.mp hk with hk1 | hk1
            · exact h1.2 k hk1
            · exact h2.2 k hk1

lemma rsBody_ok (draws : Nat → Nat) (step : Nat) (pool : List Bool) (r : ℚ)
    (out : List (String × RSVal) × List Bool × Option ℚ × Nat)
    (h : rsBody draws step pool r = .ok out) :
    dlookup out.1 "mask" = some (RSVal.bools pool) ∧ out.2.1 = pool ∧
      out.2.2.1 = some r := by
  simp only [rsBody] at h
  cases hd : drawLoop draws (nkeep (pool.count true) r) step []
      (List.range (pool.count true)) with
  | error e => rw [hd] at h; simp at h
  | ok kl =>
      rw [hd] at h
      injection h with h1
      rw [← h1]
      refine ⟨?_, rfl, rfl⟩
      rw [dlookup_dinsert_ne _ _ _ _ (Ne.symm (ratio_key_ne_mask _))]
      rw [dlookup_dinsert_ne _ _ _ _ (Ne.symm (ratio_key_ne_mask _))]
      exact dlookup_dinsert_self [] "mask" (RSVal.bools pool)

lemma mrsAux_preserve (pf : String → Option ℚ) (md : List (String × List Bool))
    (draws : Nat → Nat) :
    ∀ (sections : List (String × List String)) (pool : List Bool)
      (ratio : Option ℚ) (step : Nat)
      (out res : List (String × List (String × RSVal))),
      mrsAux pf md draws sections pool ratio step out = .ok res →
      ∀ nm, nm ∉ sections.map Prod.fst → dlookup res nm = dlookup out nm := by
  intro sections
  induction sections with
  | nil =>
      intro pool ratio step out res h nm hnm
      simp only [mrsAux] at h
      injection h with h1
      rw [h1]
  | cons sec rest ih =>
      intro pool ratio step out res h nm hnm
      obtain ⟨n2, lines⟩ := sec
      simp only [mrsAux] at h
      cases hs : rsSection pf md draws pool ratio step lines with
      | error e => rw [hs] at h; simp at h
      | ok r =>
          rw [hs] at h
          simp only [List.map_cons, List.mem_cons, not_or] at hnm
          rw [ih _ _ _ _ _ h nm hnm.2]
          exact dlookup_dinsert_ne _ _ _ _ hnm.1

lemma mrsAux_pool (pf : String → Option ℚ) (md : List (String × List Bool))
    (draws : Nat → Nat) :
    ∀ (sections : List (String × List String)) (pool : List Bool)
      (ratio : Option ℚ) (step : Nat)
      (out res : List (String × List (String × RSVal))),
      (sections.map Prod.fst).Nodup →
      (∀ nm ∈ sections.map Prod.fst, dlookup out nm = none) →
      mrsAux pf md draws sections pool ratio step out = .ok res →
      ∀ i (hi : i < sections.length),
        ∃ entry, dlookup res (sections.get ⟨i, hi⟩).1 = some entry ∧
          dlookup entry "mask" = some (RSVal.bools (poolAfter md pool
            ((sections.take (i + 1)).flatMap (fun sec => refsOf sec.2)))) ∧
          ∀ k ∈ refsOf (sections.get ⟨i, hi⟩).2, (dlookup md k).isSome = true := by
  intro sections
  induction sections with
  | nil =>
      intro pool ratio step out res hnd hout h i hi
      cases hi
  | cons sec rest ih =>
      intro pool ratio step out res hnd hout h i hi
      obtain ⟨nm, lines⟩ := sec
      simp only [mrsAux] at h
      cases hs : rsSection pf md draws pool ratio step lines with
      | error e => rw [hs] at h; simp at h
      | ok r =>
          rw [hs] at h
          obtain ⟨st2, rr, hls, hr2, hbody⟩ :=
            rsSection_ok_decomp pf md draws pool ratio step lines r hs
          have hlo := rsLines_ok pf md lines (pool, ratio) st2 hls
          have hbo := rsBody_ok draws step st2.1 rr r hbody
          simp only [List.map_cons, List.nodup_cons] at hnd
          cases i with
          | zero =>
              refine ⟨r.1, ?_, ?_, ?_⟩
              · show dlookup res nm = some r.1
                rw [mrsAux_preserve pf md draws rest _ _ _ _ res h nm hnd.1]
                exact dlookup_dinsert_self out nm r.1
              · rw [hbo.1, hlo.1]
                have ht : ((((nm, lines) :: rest).take (0 + 1)).flatMap
                    (fun sec => refsOf sec.2)) = refsOf lines := by
                  simp
                rw [ht]
              · exact hlo.2
          | succ i2 =>
              have hout2 : ∀ nm2 ∈ rest.map Prod.fst,
                  dlookup (dinsert out nm r.1) nm2 = none := by
                intro nm2 hm2
                have hne : nm2 ≠ nm := by
                  intro hc
                  exact hnd.1 (hc ▸ hm2)
                rw [dlookup_dinsert_ne _ _ _ _ hne]
                exact hout nm2 (by simp [hm2])
              obtain ⟨entry, he1, he2, he3⟩ :=
                ih r.2.1 r.2.2.1 r.2.2.2 (dinsert out nm r.1) res hnd.2 hout2 h
                  i2 (Nat.lt_of_succ_lt_succ hi)
              refine ⟨entry, he1, ?_, he3⟩
              rw [he2, hbo.2.1, hlo.1]
              have htake : (((nm, lines) :: rest).take (i2 + 1 + 1)).flatMap
                  (fun sec => refsOf sec.2) =
                  refsOf lines ++
                    ((rest.take (i2 + 1)).flatMap (fun sec => refsOf sec.2)) := by
                simp [List.take]
              rw [htake, poolAfter_append]

lemma c4_nkeep : nkeep 1 (ratioNorm 50) = 1 := by
  have h : (⌈(1 : ℚ) * ratioNorm 50⌉ : Int) = 1 := by
    rw [Int.ceil_eq_iff]
    norm_num [ratioNorm]
  simp only [nkeep, Nat.cast_one, h, Int.toNat_one]

lemma c4_floor : (⌊ratioNorm 50 * 100⌋ : Int) = 50 := by norm_num [ratioNorm]

lemma c4_body : ∀ step, rsBody (fun _ => 0) step [false, true] (ratioNorm 50) =
    .ok (entryC4, [false, true], some (ratioNorm 50), step + 1) := by
  intro step
  simp only [rsBody]
  rw [show ([false, true].count true) = 1 from rfl, c4_nkeep, c4_floor]
  rfl

lemma c4_sec1 :
    rsSection pfC4 mdC4 (fun _ => 0) (allTrue 2) none 0 ["RATIO=50", "MASK=m1"] =
      rsBody (fun _ => 0) 0 [false, true] (ratioNorm 50) := rfl

lemma c4_sec2 :
    rsSection pfC4 mdC4 (fun _ => 0) [false, true] (some (ratioNorm 50)) 1 ["RATIO=50"] =
      rsBody (fun _ => 0) 1 [false, true] (ratioNorm 50) := rfl

lemma mrs_evalC4 : make_rand_split pfC4 mdC4 (fun _ => 0) 2 secsC4 =
    .ok [("s1", entryC4), ("s2", entryC4)] := by
  show mrsAux pfC4 mdC4 (fun _ => 0) secsC4 (allTrue 2) none 0 [] = _
  simp only [secsC4, mrsAux]
  rw [c4_sec1, c4_body]
  show mrsAux pfC4 mdC4 (fun _ => 0) [("s2", ["RATIO=50"])] [false, true]
      (some (ratioNorm 50)) 1 _ = _
  simp only [mrsAux]
  rw [c4_sec2, c4_body]
  rfl

/-- Claim C4 counterexample: on a 2-row catalog with built mask
`m1 = [false, true]`, section `s1` (`RATIO=50`, `MASK=m1`) is followed by
section `s2` (`RATIO=50`, no MASK directive).  Per the claim, `s2`'s pool is
the full catalog (all-true); the code stores `[false, true]` under `s2`'s
`mask` key, because the pool accumulator is initialized once before the
section loop and `m1` leaks from `s1` into `s2`. -/
theorem rand_split_pool_cx :
    make_rand_split pfC4 mdC4 (fun _ => 0) 2 secsC4 =
      .ok [("s1", entryC4), ("s2", entryC4)] ∧
    dlookup entryC4 "mask" = some (RSVal.bools [false, true]) ∧
    RSVal.bools [false, true] ≠ RSVal.bools (allTrue 2) :=
  ⟨mrs_evalC4, rfl, by decide⟩

/-- Claim C4 (amended): for every RAND_SPLIT run that succeeds, the pool
stored under the `mask` key of the `i`-th section equals the AND — seeded
with the all-true vector over the catalog — of all masks referenced by the
MASK directives of sections `0..i` (the accumulator carries over from
section to section, so the pool of a section does depend on the MASK
directives of the sections processed before it; for the first section it is
exactly the AND of its own references, the full catalog if none).  Every
mask name referenced on a processed well-formed MASK line resolves in the
built-mask dict (an unresolved name fails the run). -/
theorem rand_split_pool_accumulates (pf : String → Option ℚ)
    (md : List (String × List Bool)) (draws : Nat → Nat) (catSize : Nat)
    (sections : List (String × List String))
    (res : List (String × List (String × RSVal)))
    (hnd : (sections.map Prod.fst).Nodup)
    (hok : make_rand_split pf md draws catSize sections = .ok res) :
    ∀ i (hi : i < sections.length),
      ∃ entry, dlookup res (sections.get ⟨i, hi⟩).1 = some entry ∧
        dlookup entry "mask" = some (RSVal.bools (poolAfter md (allTrue catSize)
          ((sections.take (i + 1)).flatMap (fun sec => refsOf sec.2)))) ∧
        ∀ k ∈ refsOf (sections.get ⟨i, hi⟩).2, (dlookup md k).isSome = true :=
  mrsAux_pool pf md draws sections (allTrue catSize) none 0 [] res hnd
    (fun _ _ => rfl) hok

/-- Closed instance of `rand_split_pool_accumulates` on the worked example:
the second section's pool is the accumulated `poolAfter` of both sections'
references. -/
theorem rand_split_pool_accumulates_witness :
    ∃ entry, dlookup [("s1", entryC4), ("s2", entryC4)] "s2" = some entry ∧
      dlookup entry "mask" = some (RSVal.bools (poolAfter mdC4 (allTrue 2)
        ((secsC4.take 2).flatMap (fun sec => refsOf sec.2)))) ∧
      ∀ k ∈ refsOf (secsC4.get ⟨1, by decide⟩).2, (dlookup mdC4 k).isSome = true :=
  rand_split_pool_accumulates pfC4 mdC4 (fun _ => 0) 2 secsC4
    [("s1", entryC4), ("s2", entryC4)] (by decide) mrs_evalC4 1 (by decide)

/-- Claim C3 failing run: on a catalog with columns `X = [0, 1]` and
`Y = [2, 2]`, a config with FLAG_SPLIT section `a` (`PARAM_NAME=X`) followed
by section `b` (`PARAM_NAME=Y`).  The claim demands one partition per
distinct value of the named column for every section (`a` names the existing
column `X` with distinct values `0` and `1`), but the code leaves section
`a`'s partition dict empty: the partition loop sits after — not inside — the
section loop, so only the section the loop variable last pointed to is
partitioned. -/
theorem flag_split_last_section_only :
    make_flag_split [("X", [0, 1]), ("Y", [2, 2])]
        [("a", ["PARAM_NAME=X"]), ("b", ["PARAM_NAME=Y"])] =
      .ok [("a", []), ("b", [("2", [0, 1])])] ∧
    dlookup [("a", ([] : List (String × List Nat))), ("b", [("2", [0, 1])])] "a" =
      some [] :=
  ⟨rfl, rfl⟩

/-- Claim C8: saving a derived catalog fails with the missing-parameter
error exactly when the product has no `OUTPUT_FORMAT` entry; it fails with
the unsupported-format error exactly when the entry is present but is none
of the four format strings `fits`, `SEx_cat`, `txt`, `ascii`; and for those
four values the save proceeds in the corresponding format, with `txt` and
`ascii` sharing the ASCII writer. -/
theorem save_new_cat_formats (d : List (String × NCVal)) :
    (save_new_cat d = .error "OUTPUT_FORMAT not provided" ↔
      dlookup d "OUTPUT_FORMAT" = none) ∧
    (save_new_cat d = .error "Format should be in fits SEx_cat txt" ↔
      ∃ v, dlookup d "OUTPUT_FORMAT" = some v ∧
        ∀ f, f ∈ (["fits", "SEx_cat", "txt", "ascii"] : List String) →
          v ≠ NCVal.str f) ∧
    (∀ f, f ∈ (["fits", "SEx_cat", "txt", "ascii"] : List String) →
      dlookup d "OUTPUT_FORMAT" = some (NCVal.str f) →
      save_new_cat d = .ok (fmtTag f, derase d "OUTPUT_FORMAT")) := by
  rcases hv : dlookup d "OUTPUT_FORMAT" with _ | v
  · refine ⟨?_, ?_, ?_⟩
    · exact ⟨fun _ => rfl, fun _ => by simp [save_new_cat, hv]⟩
    · constructor
      · intro hc
        rw [show save_new_cat d = .error "OUTPUT_FORMAT not provided" from
          by simp [save_new_cat, hv]] at hc
        simp at hc
      · rintro ⟨v, hv2, -⟩
        cases hv2
    · intro f _ hlk
      cases hlk
  · rcases v with f | a
    · by_cases hmem : f ∈ (["fits", "SEx_cat", "txt", "ascii"] : List String)
      · have hsave : save_new_cat d = .ok (fmtTag f, derase d "OUTPUT_FORMAT") := by
          fin_cases hmem <;> simp [save_new_cat, hv, fmtTag]
        refine ⟨?_, ?_, ?_⟩
        · rw [hsave]
          constructor
          · intro hc; cases hc
          · intro hc; cases hc
        · rw [hsave]
          constructor
          · intro hc; cases hc
          · rintro ⟨w, hw, hforall⟩
            injection hw with hw1
            exact absurd hw1.symm (hforall f hmem)
        · intro f2 hf2 hlk
          injection hlk with h1
          injection h1 with h2
          rw [← h2]
          exact hsave
      · simp only [List.mem_cons, List.mem_singleton, not_or] at hmem
        obtain ⟨n1, n2, n3, n4, -⟩ := hmem
        have hsave : save_new_cat d = .error "Format should be in fits SEx_cat txt" := by
          simp only [save_new_cat, hv]
          rw [show (f == "fits") = false from by rw [beq_eq_false_iff_ne]; exact n1]
          rw [show (f == "SEx_cat") = false from by rw [beq_eq_false_iff_ne]; exact n2]
          rw [show (f == "txt") = false from by rw [beq_eq_false_iff_ne]; exact n3]
          rw [show (f == "ascii") = false from by rw [beq_eq_false_iff_ne]; exact n4]
          simp
        refine ⟨?_, ?_, ?_⟩
        · rw [hsave]
          constructor
          · intro hc; simp at hc
          · intro hc; cases hc
        · rw [hsave]
          constructor
          · intro _
            refine ⟨NCVal.str f, rfl, ?_⟩
            intro f2 hf2 hc
            injection hc with h2
            rcases List.mem_cons.mp hf2 with h | hf2
            · exact n1 (h2.symm ▸ h)
            rcases List.mem_cons.mp hf2 with h | hf2
            · exact n2 (h2.symm ▸ h)
            rcases List.mem_cons.mp hf2 with h | hf2
            · exact n3 (h2.symm ▸ h)
            rcases List.mem_cons.mp hf2 with h | hf2
            · exact n4 (h2.symm ▸ h)
            cases hf2
          · intro _; rfl
        · intro f2 hf2 hlk
          injection hlk with h1
          injection h1 with h2
          rcases List.mem_cons.mp hf2 with h | hf2
          · exact absurd (h2.trans h) n1
          rcases List.mem_cons.mp hf2 with h | hf2
          · exact absurd (h2.trans h) n2
          rcases List.mem_cons.mp hf2 with h | hf2
          · exact absurd (h2.trans h) n3
          rcases List.mem_cons.mp hf2 with h | hf2
          · exact absurd (h2.trans h) n4
          cases hf2
    · have hsave : save_new_cat d = .error "Format should be in fits SEx_cat txt" := by
        simp [save_new_cat, hv]
      refine ⟨?_, ?_, ?_⟩
      · rw [hsave]
        constructor
        · intro hc; simp at hc
        · intro hc; cases hc
      · rw [hsave]
        constructor
        · intro _
          exact ⟨NCVal.arr a, rfl, fun f2 hf2 hc => by cases hc⟩
        · intro _; rfl
      · intro f2 hf2 hlk
        injection hlk with h1
        cases h1

/-- Closed instance of `save_new_cat_formats`: the missing-format
equivalence on a product without `OUTPUT_FORMAT`, and a successful `fits`
save. -/
theorem save_new_cat_formats_witness :
    (save_new_cat [("c", NCVal.arr [1])] = .error "OUTPUT_FORMAT not provided" ↔
      dlookup [("c", NCVal.arr [1])] "OUTPUT_FORMAT" = none) ∧
    save_new_cat [("OUTPUT_FORMAT", NCVal.str "fits"), ("c", NCVal.arr [1])] =
      .ok (fmtTag "fits",
        derase [("OUTPUT_FORMAT", NCVal.str "fits"), ("c", NCVal.arr [1])]
          "OUTPUT_FORMAT") :=
  ⟨(save_new_cat_formats [("c", NCVal.arr [1])]).1,
   (save_new_cat_formats [("OUTPUT_FORMAT", NCVal.str "fits"), ("c", NCVal.arr [1])]).2.2
     "fits" (by simp) rfl⟩

/-- Claim C10: the save routines mutate the product passed to them —
`save_new_cat` pops the `OUTPUT_FORMAT` entry and `save_rand_split` pops the
`mask` entry — so a second call of the same save on the same in-memory
product fails (`OUTPUT_FORMAT` reported missing, `mask` key absent) instead
of rewriting the same files. -/
theorem save_pop_mutation :
    (∀ (d : List (String × NCVal)) (tag : String) (d2 : List (String × NCVal)),
      (d.map Prod.fst).Nodup → save_new_cat d = .ok (tag, d2) →
      d2 = derase d "OUTPUT_FORMAT" ∧
        save_new_cat d2 = .error "OUTPUT_FORMAT not provided") ∧
    (∀ (d : List (String × RSVal)) (m : RSVal) (d2 : List (String × RSVal)),
      (d.map Prod.fst).Nodup → save_rand_split d = .ok (m, d2) →
      d2 = derase d "mask" ∧ save_rand_split d2 = .error "KeyError mask") := by
  constructor
  · intro d tag d2 hnd h
    have hd2 : d2 = derase d "OUTPUT_FORMAT" := by
      cases hv : dlookup d "OUTPUT_FORMAT" with
      | none =>
          rw [show save_new_cat d = .error "OUTPUT_FORMAT not provided" from
            by simp [save_new_cat, hv]] at h
          cases h
      | some v =>
          rcases v with f | a
          · simp only [save_new_cat, hv] at h
            split at h
            · injection h with hh
              exact (congrArg Prod.snd hh).symm
            · split at h
              · injection h with hh
                exact (congrArg Prod.snd hh).symm
              · split at h
                · injection h with hh
                  exact (congrArg Prod.snd hh).symm
                · cases h
          · simp only [save_new_cat, hv] at h
            cases h
    refine ⟨hd2, ?_⟩
    have hn : dlookup d2 "OUTPUT_FORMAT" = none := by
      rw [hd2]
      exact derase_dlookup_of_nodup d "OUTPUT_FORMAT" hnd
    simp [save_new_cat, hn]
  · intro d m d2 hnd h
    cases hv : dlookup d "mask" with
    | none =>
        rw [show save_rand_split d = .error "KeyError mask" from
          by simp [save_rand_split, hv]] at h
        cases h
    | some m2 =>
        simp only [save_rand_split, hv] at h
        injection h with hh
        have hd2 : d2 = derase d "mask" := (congrArg Prod.snd hh).symm
        refine ⟨hd2, ?_⟩
        have hn : dlookup d2 "mask" = none := by
          rw [hd2]
          exact derase_dlookup_of_nodup d "mask" hnd
        simp [save_rand_split, hn]

/-- Closed instance of `save_pop_mutation`: saving a concrete derived
catalog and a concrete random-split product once succeeds and strips the
control entry; the second call fails. -/
theorem save_pop_mutation_witness :
    (([("c", NCVal.arr [1])] : List (String × NCVal)) =
        derase [("OUTPUT_FORMAT", NCVal.str "fits"), ("c", NCVal.arr [1])]
          "OUTPUT_FORMAT" ∧
      save_new_cat [("c", NCVal.arr [1])] = .error "OUTPUT_FORMAT not provided") ∧
    (([("ratio_50", RSVal.ids [0])] : List (String × RSVal)) =
        derase [("mask", RSVal.bools [true]), ("ratio_50", RSVal.ids [0])] "mask" ∧
      save_rand_split [("ratio_50", RSVal.ids [0])] = .error "KeyError mask") :=
  ⟨save_pop_mutation.1 [("OUTPUT_FORMAT", NCVal.str "fits"), ("c", NCVal.arr [1])]
     "fits" [("c", NCVal.arr [1])] (by decide) rfl,
   save_pop_mutation.2 [("mask", RSVal.bools [true]), ("ratio_50", RSVal.ids [0])]
     (RSVal.bools [true]) [("ratio_50", RSVal.ids [0])] (by decide) rfl⟩
